import Mathlib

/-
  Shallow embedding of the websocket chat server
  (src/experiments/_attic/api-demos/websocket-chat/server.js).

  The server keeps two in-memory maps:
    users : Map socketId -> {id, username, room, joinedAt}   (the Connection Registry)
    rooms : Map roomKey  -> Room {name, users : Set, messages : [], createdAt}
  and handles the socket.io events join / send-message / typing / stop-typing /
  switch-room / private-message / disconnect.

  Modelling conventions:
  * socket ids are Nat, wall-clock instants ("Date.now()" / "new Date()") are Nat
    timestamps supplied with each inbound event;
  * the JS `Set` of room members is a `Finset Nat` (the spec's data model calls it
    an unordered member set with uniqueness enforced);
  * outbound `socket.emit` / `socket.to(..).emit` / `io.to(..).emit` calls are
    recorded as a list of `Out` values tagged with a `Recipient` selector;
  * the server source contains no error-emitting path at all; the `Out.errorEvent`
    constructor exists only so that the absence of error events is expressible,
    and `step` never constructs it.
-/

namespace Chat

/-- Session metadata stored in the `users` map by the `join` handler
(the map key is the socket id, which the stored `id` field merely repeats). -/
structure Session where
  username : String
  room : String
  joinedAt : Nat
  deriving DecidableEq

/-- Shape of the message object built by the `send-message` handler:
`{id: Date.now(), user, userId, text, timestamp, type: 'user'}`.
Only these messages are ever appended to a room history, so the constant
`type` field is omitted. -/
structure ChatMsg where
  id : Nat
  user : String
  userId : Nat
  text : String
  timestamp : Nat
  deriving DecidableEq

/-- Shape of the message object built by the `private-message` handler:
`{id: Date.now(), from, fromId, to, text, timestamp, type: 'private'}`.
Never stored in any room history. -/
structure PrivMsg where
  id : Nat
  fromName : String
  fromId : Nat
  toName : String
  text : String
  timestamp : Nat
  deriving DecidableEq

/-- The `Room` class: display name, member set, bounded history, creation time. -/
structure Room where
  name : String
  users : Finset Nat
  messages : List ChatMsg
  createdAt : Nat
  deriving DecidableEq

/-- Recipient selector for an emitted event:
`conn c` is `socket.emit` on socket c, `room k` is `io.to(k).emit`,
`roomExcept k c` is `socket.to(k).emit` from socket c, and
`connExcept t c` is `socket.to(t).emit` from socket c where t is a socket id
(socket.io delivers that to socket t only, and never back to the sender). -/
inductive Recipient where
  | conn (cid : Nat)
  | room (key : String)
  | roomExcept (key : String) (sender : Nat)
  | connExcept (target : Nat) (sender : Nat)
  deriving DecidableEq

/-- One outbound server event, tagged with its recipient selector. -/
inductive Out where
  | sysMessage (dest : Recipient) (text : String) (ts : Nat)
  | chatMessage (dest : Recipient) (m : ChatMsg)
  | roomHistory (dest : Recipient) (msgs : List ChatMsg)
  | usersUpdate (dest : Recipient) (memberIds : Finset Nat) (count : Nat)
  | roomsList (dest : Recipient)
  | userTyping (dest : Recipient) (username : String) (userId : Nat)
  | userStopTyping (dest : Recipient) (userId : Nat)
  | privateMessage (dest : Recipient) (m : PrivMsg)
  | errorEvent (dest : Recipient) (reason : String)
  deriving DecidableEq

/-- Inbound client events, as destructured by the handlers. -/
inductive ClientEvent where
  | join (username : String) (room : Option String)
  | sendMessage (text : String)
  | typing
  | stopTyping
  | switchRoom (room : String)
  | privateMessage (toName : String) (toId : Nat) (text : String)
  | disconnect
  deriving DecidableEq

/-- An inbound event together with the sending socket id and the wall-clock
value `Date.now()` reads while the handler runs. -/
structure TEvent where
  now : Nat
  cid : Nat
  ev : ClientEvent
  deriving DecidableEq

/-- The server's mutable state: the `users` and `rooms` maps. -/
structure State where
  users : Nat → Option Session
  rooms : String → Option Room

/-- The history bound: `const MAX_HISTORY = 100`. -/
def MAX_HISTORY : Nat := 100

/-- `Room.addMessage`: push the message, then shift off the oldest entry
when the length exceeds `MAX_HISTORY`. -/
def addMessage (messages : List ChatMsg) (m : ChatMsg) : List ChatMsg :=
  let pushed := messages ++ [m]
  if MAX_HISTORY < pushed.length then pushed.tail else pushed

/-- JavaScript's `toLowerCase()` on room names: lower-case every character.
Spelled as a character-by-character map (the same result as `String.toLower`)
so that it reduces inside the kernel. -/
def lowerStr (t : String) : String := ⟨t.data.map Char.toLower⟩

/-- Room key normalization: `room.toLowerCase()`, with the `join` handler's
destructuring default `room = 'general'`. -/
def joinKey (room : Option String) : String :=
  lowerStr (room.getD "general")

/-- Lazy room creation used by `join` and `switch-room`:
`rooms.get(key)` or `new Room(displayName)` (stored under `key` by the caller). -/
def getOrCreateRoom (rooms : String → Option Room) (key displayName : String)
    (now : Nat) : Room :=
  match rooms key with
  | some r => r
  | none => ⟨displayName, ∅, [], now⟩

/-- Removing a member on leave/disconnect: `roomObj.removeUser(socket.id)`,
guarded by `if (roomObj)` — a missing room leaves the map untouched. -/
def leaveRoom (rooms : String → Option Room) (key : String) (c : Nat) :
    String → Option Room :=
  match rooms key with
  | some r => Function.update rooms key (some { r with users := r.users.erase c })
  | none => rooms

/-- Appending to a room history in `send-message`: `room.addMessage(message)`,
guarded by `if (room)`. -/
def appendToRoom (rooms : String → Option Room) (key : String) (m : ChatMsg) :
    String → Option Room :=
  match rooms key with
  | some r => Function.update rooms key (some { r with messages := addMessage r.messages m })
  | none => rooms

/-- Startup state: empty `users` map, and the four default rooms stored under
their lower-cased names (`defaultRooms.forEach(...)`), created at time 0. -/
def initState : State where
  users := fun _ => none
  rooms := fun k =>
    if k = "general" then some ⟨"General", ∅, [], 0⟩
    else if k = "random" then some ⟨"Random", ∅, [], 0⟩
    else if k = "tech" then some ⟨"Tech", ∅, [], 0⟩
    else if k = "gaming" then some ⟨"Gaming", ∅, [], 0⟩
    else none

/-- One handler invocation: the next state and the list of emitted events,
translated clause by clause from the socket.io handlers in server.js. -/
def step (s : State) (e : TEvent) : State × List Out :=
  match e.ev with
  | .join username roomOpt =>
      let room := roomOpt.getD "general"
      let roomKey := joinKey roomOpt
      let users' := Function.update s.users e.cid (some ⟨username, roomKey, e.now⟩)
      let roomObj := getOrCreateRoom s.rooms roomKey room e.now
      let roomObj' := { roomObj with users := insert e.cid roomObj.users }
      let rooms' := Function.update s.rooms roomKey (some roomObj')
      (⟨users', rooms'⟩,
        [ .sysMessage (.conn e.cid) ("Welcome to " ++ room ++ ", " ++ username ++ "!") e.now,
          .roomHistory (.conn e.cid) roomObj'.messages,
          .sysMessage (.roomExcept roomKey e.cid) (username ++ " has joined the room") e.now,
          .usersUpdate (.room roomKey) roomObj'.users roomObj'.users.card,
          .roomsList (.conn e.cid) ])
  | .sendMessage text =>
      match s.users e.cid with
      | none => (s, [])
      | some u =>
          let m : ChatMsg := ⟨e.now, u.username, e.cid, text, e.now⟩
          (⟨s.users, appendToRoom s.rooms u.room m⟩,
            [ .chatMessage (.room u.room) m ])
  | .typing =>
      match s.users e.cid with
      | none => (s, [])
      | some u => (s, [ .userTyping (.roomExcept u.room e.cid) u.username e.cid ])
  | .stopTyping =>
      match s.users e.cid with
      | none => (s, [])
      | some u => (s, [ .userStopTyping (.roomExcept u.room e.cid) e.cid ])
  | .switchRoom room =>
      match s.users e.cid with
      | none => (s, [])
      | some u =>
          let newRoomKey := lowerStr room
          let oldKey := u.room
          let rooms₁ := leaveRoom s.rooms oldKey e.cid
          let outs₁ :=
            match s.rooms oldKey with
            | some oldR =>
                [ Out.sysMessage (.roomExcept oldKey e.cid)
                    (u.username ++ " has left the room") e.now,
                  Out.usersUpdate (.room oldKey) (oldR.users.erase e.cid)
                    (oldR.users.erase e.cid).card ]
            | none => []
          let users' := Function.update s.users e.cid (some { u with room := newRoomKey })
          let newR := getOrCreateRoom rooms₁ newRoomKey room e.now
          let newR' := { newR with users := insert e.cid newR.users }
          let rooms₂ := Function.update rooms₁ newRoomKey (some newR')
          (⟨users', rooms₂⟩,
            outs₁ ++
            [ .roomHistory (.conn e.cid) newR'.messages,
              .sysMessage (.roomExcept newRoomKey e.cid)
                (u.username ++ " has joined the room") e.now,
              .usersUpdate (.room newRoomKey) newR'.users newR'.users.card ])
  | .privateMessage toName toId text =>
      match s.users e.cid with
      | none => (s, [])
      | some sender =>
          let m : PrivMsg := ⟨e.now, sender.username, e.cid, toName, text, e.now⟩
          (s, [ .privateMessage (.connExcept toId e.cid) m,
                .privateMessage (.conn e.cid) m ])
  | .disconnect =>
      match s.users e.cid with
      | none => (s, [])
      | some u =>
          let rooms' := leaveRoom s.rooms u.room e.cid
          let outs :=
            match s.rooms u.room with
            | some r =>
                [ Out.sysMessage (.roomExcept u.room e.cid)
                    (u.username ++ " has left the room") e.now,
                  Out.usersUpdate (.room u.room) (r.users.erase e.cid)
                    (r.users.erase e.cid).card ]
            | none => []
          (⟨Function.update s.users e.cid none, rooms'⟩, outs)

/-- Run a whole trace of inbound events, collecting every emitted event. -/
def processTrace (s : State) : List TEvent → State × List Out
  | [] => (s, [])
  | e :: rest =>
      ((processTrace (step s e).1 rest).1,
       (step s e).2 ++ (processTrace (step s e).1 rest).2)

/-- Membership test on the room store. -/
def State.isMember (s : State) (key : String) (c : Nat) : Bool :=
  match s.rooms key with
  | some r => decide (c ∈ r.users)
  | none => false

/-- The member set stored under a key (empty when the room does not exist). -/
def usersOf (r : Option Room) : Finset Nat :=
  match r with
  | some room => room.users
  | none => ∅

/-- Recognizer for `user-stop-typing` emissions. -/
def Out.isUserStopTyping : Out → Bool
  | .userStopTyping _ _ => true
  | _ => false

/-- Recognizer for `user-typing` emissions. -/
def Out.isUserTyping : Out → Bool
  | .userTyping _ _ _ => true
  | _ => false

/-- Recognizer for error emissions (the handlers never produce one). -/
def Out.isError : Out → Bool
  | .errorEvent _ _ => true
  | _ => false

/-- The recipient selector of an outbound event. -/
def Out.recip : Out → Recipient
  | .sysMessage d _ _ => d
  | .chatMessage d _ => d
  | .roomHistory d _ => d
  | .usersUpdate d _ _ => d
  | .roomsList d => d
  | .userTyping d _ _ => d
  | .userStopTyping d _ => d
  | .privateMessage d _ => d
  | .errorEvent d _ => d

/-- Delivery of a recipient selector to a concrete connection `c`, given the
set of currently connected socket ids. `socket.to(room)` fans out to the
room's members except the sender; `socket.to(targetId)` reaches the target's
private socket.io room, which is nonempty only while the target is connected,
and never includes the sender. -/
def Recipient.delivers (s : State) (connected : Finset Nat) (c : Nat) :
    Recipient → Bool
  | .conn t => c = t ∧ c ∈ connected
  | .room k => decide (c ∈ usersOf (s.rooms k))
  | .roomExcept k sender => decide (c ∈ usersOf (s.rooms k)) && c != sender
  | .connExcept target sender => (c = target ∧ c ∈ connected) && c != sender

/-- Events whose handler begins with the guard
`const user = users.get(socket.id); if (!user) return;`. -/
def requiresJoin : ClientEvent → Bool
  | .join _ _ => false
  | _ => true

/-- Message ids minted by one handler invocation: `Date.now()` at creation,
for the `send-message` and `private-message` handlers of a joined sender. -/
def createdIds (s : State) (e : TEvent) : List Nat :=
  match e.ev with
  | .sendMessage _ =>
      match s.users e.cid with
      | none => []
      | some _ => [e.now]
  | .privateMessage _ _ _ =>
      match s.users e.cid with
      | none => []
      | some _ => [e.now]
  | _ => []

/-- All message ids minted along a trace, in creation order. -/
def allCreatedIds (s : State) : List TEvent → List Nat
  | [] => []
  | e :: rest => createdIds s e ++ allCreatedIds (step s e).1 rest

/-- Goodness of one event relative to the current state: a `join` is only
issued by a connection that is not currently registered. -/
def okEvent (s : State) (e : TEvent) : Bool :=
  match e.ev with
  | .join _ _ => s.users e.cid == none
  | _ => true

/-- A trace in which no connection joins while already registered. -/
def goodTrace (s : State) : List TEvent → Bool
  | [] => true
  | e :: rest => okEvent s e && goodTrace (step s e).1 rest

/-- Registry/room-store consistency: every member of a stored room is
registered with that room as its current room. -/
def Inv (s : State) : Prop :=
  ∀ k r c, s.rooms k = some r → c ∈ r.users →
    (s.users c).map Session.room = some k

/-! ### Pointwise characterizations of the handlers -/

lemma leaveRoom_apply (rooms : String → Option Room) (key : String) (c : Nat)
    (k : String) :
    leaveRoom rooms key c k =
      if k = key then (rooms key).map (fun r => { r with users := r.users.erase c })
      else rooms k := by
  unfold leaveRoom
  by_cases hk : k = key
  · subst hk
    cases h : rooms k <;> simp [h, Function.update_same]
  · cases h : rooms key <;> simp [h, hk, Function.update_noteq hk]

lemma appendToRoom_apply (rooms : String → Option Room) (key : String) (m : ChatMsg)
    (k : String) :
    appendToRoom rooms key m k =
      if k = key then (rooms key).map (fun r => { r with messages := addMessage r.messages m })
      else rooms k := by
  unfold appendToRoom
  by_cases hk : k = key
  · subst hk
    cases h : rooms k <;> simp [h, Function.update_same]
  · cases h : rooms key <;> simp [h, hk, Function.update_noteq hk]

lemma getOrCreateRoom_users (rooms : String → Option Room) (key displayName : String)
    (now : Nat) :
    (getOrCreateRoom rooms key displayName now).users = usersOf (rooms key) := by
  unfold getOrCreateRoom usersOf
  cases rooms key <;> rfl

/-- The guard `const user = users.get(socket.id); if (!user) return;` shared by
every handler except `join`: an unregistered sender is ignored outright. -/
lemma step_guard_none (s : State) (e : TEvent) (hj : requiresJoin e.ev = true)
    (hu : s.users e.cid = none) : step s e = (s, []) := by
  obtain ⟨n, c, ev⟩ := e
  cases ev <;> simp_all [step, requiresJoin]

lemma step_join_users (s : State) (n c : Nat) (uname : String) (ro : Option String) :
    (step s ⟨n, c, .join uname ro⟩).1.users
      = Function.update s.users c (some ⟨uname, joinKey ro, n⟩) := rfl

lemma step_join_rooms (s : State) (n c : Nat) (uname : String) (ro : Option String) :
    (step s ⟨n, c, .join uname ro⟩).1.rooms
      = Function.update s.rooms (joinKey ro)
          (some { getOrCreateRoom s.rooms (joinKey ro) (ro.getD "general") n with
                  users := insert c (getOrCreateRoom s.rooms (joinKey ro)
                    (ro.getD "general") n).users }) := rfl

lemma step_send_state (s : State) (n c : Nat) (txt : String) (u : Session)
    (hu : s.users c = some u) :
    (step s ⟨n, c, .sendMessage txt⟩).1
      = ⟨s.users, appendToRoom s.rooms u.room ⟨n, u.username, c, txt, n⟩⟩ := by
  simp [step, hu]

lemma step_typing_state (s : State) (n c : Nat) :
    (step s ⟨n, c, .typing⟩).1 = s := by
  cases hu : s.users c <;> simp [step, hu]

lemma step_stopTyping_state (s : State) (n c : Nat) :
    (step s ⟨n, c, .stopTyping⟩).1 = s := by
  cases hu : s.users c <;> simp [step, hu]

lemma step_private_state (s : State) (n c : Nat) (toName : String) (toId : Nat)
    (txt : String) :
    (step s ⟨n, c, .privateMessage toName toId txt⟩).1 = s := by
  cases hu : s.users c <;> simp [step, hu]

lemma step_switch_state (s : State) (n c : Nat) (rm : String) (u : Session)
    (hu : s.users c = some u) :
    (step s ⟨n, c, .switchRoom rm⟩).1
      = ⟨Function.update s.users c (some { u with room := lowerStr rm }),
         Function.update (leaveRoom s.rooms u.room c) (lowerStr rm)
           (some { getOrCreateRoom (leaveRoom s.rooms u.room c) (lowerStr rm) rm n with
                   users := insert c (getOrCreateRoom (leaveRoom s.rooms u.room c)
                     (lowerStr rm) rm n).users })⟩ := by
  simp [step, hu]

lemma step_disconnect_state (s : State) (n c : Nat) (u : Session)
    (hu : s.users c = some u) :
    (step s ⟨n, c, .disconnect⟩).1
      = ⟨Function.update s.users c none, leaveRoom s.rooms u.room c⟩ := by
  simp [step, hu]

/-- The handlers never emit an error event: no error-producing code exists in
the server at all. -/
lemma step_no_error (s : State) (e : TEvent) :
    ((step s e).2.filter Out.isError) = [] := by
  obtain ⟨n, c, ev⟩ := e
  cases ev <;> cases hu : s.users c <;>
    simp [step, hu, Out.isError] <;>
    cases hr : s.rooms _ <;> simp [Out.isError]

/-! ### C1: bounded FIFO history -/

/-- Folding `Room.addMessage` over the whole sequence of appended messages,
starting from the empty history a fresh room has, keeps exactly the suffix of
the most recent `MAX_HISTORY` messages. -/
lemma foldl_addMessage_eq_drop (ms : List ChatMsg) :
    List.foldl addMessage [] ms = ms.drop (ms.length - MAX_HISTORY) := by
  have hM : 1 ≤ MAX_HISTORY := by decide
  induction ms using List.reverseRecOn with
  | nil => simp
  | append_singleton ms m ih =>
      rw [List.foldl_append, List.foldl_cons, List.foldl_nil, ih]
      simp only [addMessage]
      by_cases h : ms.length < MAX_HISTORY
      · have h1 : ms.length - MAX_HISTORY = 0 := by omega
        rw [h1, List.drop_zero]
        have h3 : ¬ MAX_HISTORY < (ms ++ [m]).length := by
          simp only [List.length_append, List.length_cons, List.length_nil]
          omega
        rw [if_neg h3]
        have h2 : (ms ++ [m]).length - MAX_HISTORY = 0 := by
          simp only [List.length_append, List.length_cons, List.length_nil]
          omega
        rw [h2, List.drop_zero]
      · have hW : (ms.drop (ms.length - MAX_HISTORY)).length
            = ms.length - (ms.length - MAX_HISTORY) := List.length_drop ..
        have h4 : MAX_HISTORY < (ms.drop (ms.length - MAX_HISTORY) ++ [m]).length := by
          simp only [List.length_append, List.length_cons, List.length_nil, hW]
          omega
        rw [if_pos h4, ← List.drop_one,
          List.drop_append_of_le_length (by rw [hW]; omega),
          List.drop_drop]
        have h5 : (ms ++ [m]).length - MAX_HISTORY
            = ms.length - MAX_HISTORY + 1 := by
          simp only [List.length_append, List.length_cons, List.length_nil]
          omega
        rw [h5, List.drop_append_of_le_length (by omega)]

/-- C1 (confirmed): for every sequence `ms` of messages appended to a room
(room histories start empty, and `send-message` is the only appender), the
resulting history is precisely the last `min ms.length MAX_HISTORY` appended
messages in arrival order, oldest first — i.e. the suffix dropping all but the
most recent `MAX_HISTORY`; in particular once more than `MAX_HISTORY = 100`
messages have been appended the history has length exactly 100, and with at
most 100 appends it contains all of them. -/
theorem history_sliding_window (ms : List ChatMsg) :
    List.foldl addMessage [] ms = ms.drop (ms.length - MAX_HISTORY)
    ∧ (List.foldl addMessage [] ms).length = min ms.length MAX_HISTORY := by
  refine ⟨foldl_addMessage_eq_drop ms, ?_⟩
  rw [foldl_addMessage_eq_drop, List.length_drop]
  omega

/-! ### C2: registry / room-store consistency -/

lemma inv_init : Inv initState := by
  intro k r c hk hc
  simp only [initState] at hk
  split_ifs at hk <;> (injection hk with h; subst h; simp at hc)

lemma inv_step (s : State) (e : TEvent) (hInv : Inv s) (hok : okEvent s e = true) :
    Inv (step s e).1 := by
  obtain ⟨n, c, ev⟩ := e
  cases ev with
  | join uname ro =>
      have hnone : s.users c = none := by simpa [okEvent] using hok
      intro k r d hk hd
      rw [step_join_rooms] at hk
      rw [step_join_users]
      by_cases hkk : k = joinKey ro
      · subst hkk
        rw [Function.update_same] at hk
        injection hk with hk
        subst hk
        rcases Finset.mem_insert.mp hd with hdc | hdm
        · subst hdc
          rw [Function.update_same]; rfl
        · rw [getOrCreateRoom_users] at hdm
          cases hr0 : s.rooms (joinKey ro) with
          | none => rw [hr0] at hdm; simp [usersOf] at hdm
          | some r0 =>
              rw [hr0] at hdm
              have hmem : d ∈ r0.users := by simpa [usersOf] using hdm
              have hreg := hInv _ r0 d hr0 hmem
              have hdc : d ≠ c := by
                intro h; subst h; rw [hnone] at hreg; simp at hreg
              rw [Function.update_noteq hdc]
              exact hreg
      · rw [Function.update_noteq hkk] at hk
        have hreg := hInv _ _ d hk hd
        have hdc : d ≠ c := by
          intro h; subst h; rw [hnone] at hreg; simp at hreg
        rw [Function.update_noteq hdc]
        exact hreg
  | sendMessage txt =>
      cases hu : s.users c with
      | none => rw [step_guard_none s ⟨n, c, .sendMessage txt⟩ rfl hu]; exact hInv
      | some u =>
          have hst := step_send_state s n c txt u hu
          have hus : (step s ⟨n, c, .sendMessage txt⟩).1.users = s.users := by rw [hst]
          have hrs : (step s ⟨n, c, .sendMessage txt⟩).1.rooms
              = appendToRoom s.rooms u.room ⟨n, u.username, c, txt, n⟩ := by rw [hst]
          intro k r d hk hd
          rw [hrs, appendToRoom_apply] at hk
          rw [hus]
          by_cases hkk : k = u.room
          · rw [if_pos hkk] at hk
            cases hr0 : s.rooms u.room with
            | none => rw [hr0] at hk; simp at hk
            | some r0 =>
                rw [hr0] at hk
                injection hk with hk
                subst hk
                rw [hkk]
                exact hInv _ r0 d hr0 hd
          · rw [if_neg hkk] at hk
            exact hInv _ _ d hk hd
  | typing => rw [step_typing_state]; exact hInv
  | stopTyping => rw [step_stopTyping_state]; exact hInv
  | privateMessage a b t => rw [step_private_state]; exact hInv
  | switchRoom rm =>
      cases hu : s.users c with
      | none => rw [step_guard_none s ⟨n, c, .switchRoom rm⟩ rfl hu]; exact hInv
      | some u =>
          have hst := step_switch_state s n c rm u hu
          have hus : (step s ⟨n, c, .switchRoom rm⟩).1.users
              = Function.update s.users c (some { u with room := lowerStr rm }) := by rw [hst]
          have hrs : (step s ⟨n, c, .switchRoom rm⟩).1.rooms
              = Function.update (leaveRoom s.rooms u.room c) (lowerStr rm)
                  (some { getOrCreateRoom (leaveRoom s.rooms u.room c) (lowerStr rm) rm n with
                          users := insert c (getOrCreateRoom (leaveRoom s.rooms u.room c)
                            (lowerStr rm) rm n).users }) := by rw [hst]
          intro k r d hk hd
          rw [hrs] at hk
          rw [hus]
          by_cases hkN : k = lowerStr rm
          · subst hkN
            rw [Function.update_same] at hk
            injection hk with hk
            subst hk
            by_cases hdc : d = c
            · subst hdc
              rw [Function.update_same]; rfl
            · rw [Function.update_noteq hdc]
              have hdm : d ∈ (getOrCreateRoom (leaveRoom s.rooms u.room c)
                  (lowerStr rm) rm n).users := by
                rcases Finset.mem_insert.mp hd with h | h
                · exact absurd h hdc
                · exact h
              rw [getOrCreateRoom_users, leaveRoom_apply] at hdm
              by_cases hNO : lowerStr rm = u.room
              · rw [if_pos hNO] at hdm
                cases hr0 : s.rooms u.room with
                | none => rw [hr0] at hdm; simp [usersOf] at hdm
                | some r0 =>
                    rw [hr0] at hdm
                    have hdm' : d ∈ r0.users.erase c := by simpa [usersOf] using hdm
                    have hreg := hInv _ r0 d hr0 (Finset.mem_of_mem_erase hdm')
                    rw [hNO]
                    exact hreg
              · rw [if_neg hNO] at hdm
                cases hr0 : s.rooms (lowerStr rm) with
                | none => rw [hr0] at hdm; simp [usersOf] at hdm
                | some r0 =>
                    rw [hr0] at hdm
                    exact hInv _ r0 d hr0 (by simpa [usersOf] using hdm)
          · rw [Function.update_noteq hkN, leaveRoom_apply] at hk
            by_cases hkO : k = u.room
            · rw [if_pos hkO] at hk
              cases hr0 : s.rooms u.room with
              | none => rw [hr0] at hk; simp at hk
              | some r0 =>
                  rw [hr0] at hk
                  injection hk with hk
                  subst hk
                  have hdne : d ≠ c := by
                    intro h; subst h; exact absurd hd (by simp)
                  rw [Function.update_noteq hdne, hkO]
                  exact hInv _ r0 d hr0 (Finset.mem_of_mem_erase hd)
            · rw [if_neg hkO] at hk
              have hreg := hInv _ _ d hk hd
              have hdne : d ≠ c := by
                intro h; subst h
                rw [hu] at hreg
                simp at hreg
                exact hkO hreg.symm
              rw [Function.update_noteq hdne]
              exact hreg
  | disconnect =>
      cases hu : s.users c with
      | none => rw [step_guard_none s ⟨n, c, .disconnect⟩ rfl hu]; exact hInv
      | some u =>
          have hst := step_disconnect_state s n c u hu
          have hus : (step s ⟨n, c, .disconnect⟩).1.users
              = Function.update s.users c none := by rw [hst]
          have hrs : (step s ⟨n, c, .disconnect⟩).1.rooms
              = leaveRoom s.rooms u.room c := by rw [hst]
          intro k r d hk hd
          rw [hrs, leaveRoom_apply] at hk
          rw [hus]
          by_cases hkO : k = u.room
          · rw [if_pos hkO] at hk
            cases hr0 : s.rooms u.room with
            | none => rw [hr0] at hk; simp at hk
            | some r0 =>
                rw [hr0] at hk
                injection hk with hk
                subst hk
                have hdne : d ≠ c := by
                  intro h; subst h; exact absurd hd (by simp)
                rw [Function.update_noteq hdne, hkO]
                exact hInv _ r0 d hr0 (Finset.mem_of_mem_erase hd)
          · rw [if_neg hkO] at hk
            have hreg := hInv _ _ d hk hd
            have hdne : d ≠ c := by
              intro h; subst h
              rw [hu] at hreg
              simp at hreg
              exact hkO hreg.symm
            rw [Function.update_noteq hdne]
            exact hreg

lemma inv_processTrace (s : State) (tr : List TEvent) (hInv : Inv s)
    (hg : goodTrace s tr = true) : Inv (processTrace s tr).1 := by
  induction tr generalizing s with
  | nil => exact hInv
  | cons e rest ih =>
      rw [goodTrace, Bool.and_eq_true] at hg
      exact ih (step s e).1 (inv_step s e hInv hg.1) hg.2

/-- C2 (counterexample to the claim as stated): from the initial state, the
two-event sequence in which connection 1 joins room "General" and then, while
still registered, joins room "Tech" leaves connection 1 in the member sets of
both rooms, while the Registry records only "tech" as its current room — so a
connection id can appear in two rooms' member sets, and in a room's member set
without that room being its registered current room. -/
theorem c2_membership_counterexample :
    (processTrace initState
        [⟨0, 1, .join "a" (some "General")⟩, ⟨1, 1, .join "a" (some "Tech")⟩]).1.isMember
        "general" 1 = true
    ∧ (processTrace initState
        [⟨0, 1, .join "a" (some "General")⟩, ⟨1, 1, .join "a" (some "Tech")⟩]).1.isMember
        "tech" 1 = true
    ∧ ((processTrace initState
        [⟨0, 1, .join "a" (some "General")⟩, ⟨1, 1, .join "a" (some "Tech")⟩]).1.users 1).map
        Session.room = some "tech"
    ∧ "general" ≠ "tech" := by decide

/-- C2 (amended): in every state reachable from startup by a sequence of join,
send-message, switch-room, typing, stop-typing, private-message and disconnect
events in which no connection issues a `join` while it is already registered,
every connection id present in some room's member set is registered in the
Registry with that room as its current room, and no connection id appears in
the member sets of two distinct rooms. The no-repeated-join restriction is
forced by the counterexample: the join handler registers unconditionally. -/
theorem c2_membership_invariant (tr : List TEvent)
    (hg : goodTrace initState tr = true) :
    (∀ k r c, (processTrace initState tr).1.rooms k = some r → c ∈ r.users →
        ((processTrace initState tr).1.users c).map Session.room = some k)
    ∧ ∀ k₁ k₂ r₁ r₂ c, (processTrace initState tr).1.rooms k₁ = some r₁ →
        (processTrace initState tr).1.rooms k₂ = some r₂ →
        c ∈ r₁.users → c ∈ r₂.users → k₁ = k₂ := by
  have h := inv_processTrace initState tr inv_init hg
  refine ⟨h, ?_⟩
  intro k₁ k₂ r₁ r₂ c h1 h2 hc1 hc2
  exact Option.some.inj ((h k₁ r₁ c h1 hc1).symm.trans (h k₂ r₂ c h2 hc2))

/-- Witness for C2: a concrete good trace (one join) on which the invariant
theorem applies and yields the expected registry entry. -/
theorem c2_membership_invariant_witness :
    goodTrace initState [⟨0, 1, .join "alice" none⟩] = true
    ∧ ((processTrace initState [⟨0, 1, .join "alice" none⟩]).1.users 1).map
        Session.room = some "general" :=
  ⟨by decide,
   (c2_membership_invariant [⟨0, 1, .join "alice" none⟩] (by decide)).1
     "general" ⟨"General", {1}, [], 0⟩ 1 (by decide) (by decide)⟩

/-! ### C3–C6: typing expiry, silent failure semantics, private messages,
duplicate joins -/

/-- A sample reachable state: connection 1 joined as "alice" with no room field
(so into "general") at time 0. -/
def sAlice : State := (step initState ⟨0, 1, .join "alice" none⟩).1

/-- Emissions of `user-stop-typing` happen only inside the `stop-typing`
handler: every other handler's output list contains none. -/
lemma step_stop_typing_only (s : State) (e : TEvent)
    (hne : e.ev ≠ ClientEvent.stopTyping) :
    (step s e).2.filter Out.isUserStopTyping = [] := by
  obtain ⟨n, c, ev⟩ := e
  cases ev <;>
    first
      | (exact absurd rfl hne)
      | (cases hu : s.users c <;>
          simp [step, hu, Out.isUserStopTyping] <;>
          cases hr : s.rooms _ <;> simp [Out.isUserStopTyping])

/-- C3 (counterexample to the claim as stated): connections 1 and 2 join
"general"; connection 1 sends `typing` at time 1 and then nothing further.
The complete server output for this trace contains the single `user-typing`
broadcast to the rest of the room and no `user-stop-typing` at all — there is
no typing-timeout mechanism, so the indicator is never retracted, at any time. -/
theorem c3_typing_counterexample :
    ((processTrace initState
        [⟨0, 1, .join "a" none⟩, ⟨0, 2, .join "b" none⟩, ⟨1, 1, .typing⟩]).2.filter
        Out.isUserStopTyping) = []
    ∧ ((processTrace initState
        [⟨0, 1, .join "a" none⟩, ⟨0, 2, .join "b" none⟩, ⟨1, 1, .typing⟩]).2.filter
        Out.isUserTyping)
      = [.userTyping (.roomExcept "general" 1) "a" 1] := by decide

/-- C3 (amended): the server has no typing timeout. The `typing` handler
mutates no state and schedules nothing, and `user-stop-typing` is emitted only
while handling an explicit `stop-typing` client event; hence after a `typing`
event with no follow-up from the client, no `user-stop-typing` is ever
observed by anyone. -/
theorem c3_no_typing_timeout (s : State) (e : TEvent) :
    (e.ev = ClientEvent.typing → (step s e).1 = s)
    ∧ (e.ev ≠ ClientEvent.stopTyping →
        (step s e).2.filter Out.isUserStopTyping = []) := by
  constructor
  · intro hev
    obtain ⟨n, c, ev⟩ := e
    cases hev
    exact step_typing_state s n c
  · exact step_stop_typing_only s e

/-- Witness for C3: the typing event from joined connection 1 leaves the state
unchanged and yields no `user-stop-typing`. -/
theorem c3_no_typing_timeout_witness :
    ((step sAlice ⟨1, 1, .typing⟩).1 = sAlice)
    ∧ (step sAlice ⟨1, 1, .typing⟩).2.filter Out.isUserStopTyping = [] :=
  ⟨(c3_no_typing_timeout sAlice ⟨1, 1, .typing⟩).1 rfl,
   (c3_no_typing_timeout sAlice ⟨1, 1, .typing⟩).2 (by decide)⟩

/-- C4 (counterexample to the claim as stated): a `send-message` from
connection 7, which never joined, produces no output whatsoever — in
particular the sender does not receive any explanatory error event. -/
theorem c4_no_error_counterexample :
    (step initState ⟨0, 7, .sendMessage "hi"⟩).2 = []
    ∧ (step initState ⟨0, 7, .sendMessage "hi"⟩).1 = initState := by
  have h := step_guard_none initState ⟨0, 7, .sendMessage "hi"⟩ rfl rfl
  exact ⟨by rw [h], by rw [h]⟩

/-- C4 (amended): every event other than `join` arriving from a connection
that has not joined is silently ignored: the server emits nothing at all (so
the sender receives no error event and nothing is broadcast to anyone) and no
shared state is mutated. -/
theorem c4_unjoined_silently_ignored (s : State) (e : TEvent)
    (hj : requiresJoin e.ev = true) (hu : s.users e.cid = none) :
    step s e = (s, []) :=
  step_guard_none s e hj hu

/-- Witness for C4: the `send-message` guard fires on the initial state. -/
theorem c4_unjoined_silently_ignored_witness :
    (requiresJoin (ClientEvent.sendMessage "hi") = true
      ∧ initState.users 7 = none)
    ∧ step initState ⟨0, 7, .sendMessage "hi"⟩ = (initState, []) :=
  ⟨⟨by decide, rfl⟩,
   c4_unjoined_silently_ignored initState ⟨0, 7, .sendMessage "hi"⟩ (by decide) rfl⟩

/-- C5 (counterexample to the claim as stated): joined connection 1 sends a
private message to target id 99, which is not connected. The server emits the
point-to-point message (to the empty socket room 99) and the confirmation echo
back to the sender — no `UnknownTarget` error event exists in the output. -/
theorem c5_unknown_target_counterexample :
    (step sAlice ⟨1, 1, .privateMessage "bob" 99 "hi"⟩).2
      = [.privateMessage (.connExcept 99 1) ⟨1, "alice", 1, "bob", "hi", 1⟩,
         .privateMessage (.conn 1) ⟨1, "alice", 1, "bob", "hi", 1⟩]
    ∧ ((step sAlice ⟨1, 1, .privateMessage "bob" 99 "hi"⟩).2.filter Out.isError)
      = [] := by decide

/-- C5 (amended): a `private-message` from a joined sender mutates no state and
emits exactly the point-to-point copy and the sender echo; when the target id
is not among the connected sockets, no connection other than the sender
receives anything — but the sender receives the echo, not an `UnknownTarget`
error, which the server never produces. -/
theorem c5_private_to_unknown_target (s : State) (connected : Finset Nat)
    (e : TEvent) (sender : Session) (toName : String) (toId : Nat) (txt : String)
    (hev : e.ev = .privateMessage toName toId txt)
    (hu : s.users e.cid = some sender)
    (hconn : toId ∉ connected) :
    (step s e).1 = s
    ∧ (step s e).2
        = [.privateMessage (.connExcept toId e.cid)
             ⟨e.now, sender.username, e.cid, toName, txt, e.now⟩,
           .privateMessage (.conn e.cid)
             ⟨e.now, sender.username, e.cid, toName, txt, e.now⟩]
    ∧ ((step s e).2.filter Out.isError) = []
    ∧ ∀ c, c ≠ e.cid → ∀ o ∈ (step s e).2,
        (Out.recip o).delivers s connected c = false := by
  obtain ⟨n, c0, ev⟩ := e
  cases hev
  refine ⟨step_private_state s n c0 toName toId txt, ?_, ?_, ?_⟩
  · simp [step, hu]
  · simp [step, hu, Out.isError]
  · intro c hc o ho
    have hfalse : ¬ (c = toId ∧ c ∈ connected) := by
      rintro ⟨h1, h2⟩; exact hconn (h1 ▸ h2)
    simp [step, hu] at ho
    rcases ho with ho | ho <;> subst ho <;>
      simp [Out.recip, Recipient.delivers, hfalse, hc]

/-- Witness for C5: connection 1 (joined via `sAlice`) messages absent id 99
while only socket 1 is connected; the state is unchanged. -/
theorem c5_private_to_unknown_target_witness :
    (sAlice.users 1 = some ⟨"alice", "general", 0⟩
      ∧ (99 : Nat) ∉ ({1} : Finset Nat))
    ∧ (step sAlice ⟨1, 1, .privateMessage "bob" 99 "hi"⟩).1 = sAlice :=
  ⟨⟨by decide, by decide⟩,
   (c5_private_to_unknown_target sAlice {1} ⟨1, 1, .privateMessage "bob" 99 "hi"⟩
     ⟨"alice", "general", 0⟩ "bob" 99 "hi" rfl (by decide) (by decide)).1⟩

/-- C6 (counterexample to the claim as stated): connection 1 joins "General";
a second join of the same connection for "Tech" does not fail with
`DuplicateConnection` — it emits no error event, and the Registry entry for
id 1 changes from room "general" (joined at 0) to room "tech" (joined at 1). -/
theorem c6_duplicate_join_counterexample :
    ((step initState ⟨0, 1, .join "alice" (some "General")⟩).1.users 1
        = some ⟨"alice", "general", 0⟩)
    ∧ (step (step initState ⟨0, 1, .join "alice" (some "General")⟩).1
        ⟨1, 1, .join "alice" (some "Tech")⟩).1.users 1 = some ⟨"alice", "tech", 1⟩
    ∧ some (⟨"alice", "tech", 1⟩ : Session) ≠ some (⟨"alice", "general", 0⟩ : Session)
    ∧ ((step (step initState ⟨0, 1, .join "alice" (some "General")⟩).1
        ⟨1, 1, .join "alice" (some "Tech")⟩).2.filter Out.isError) = [] := by
  decide

/-- C6 (amended): a further `join` from an already-registered connection does
not fail and emits no error event: it unconditionally overwrites the Registry
entry with the new display name, room key and join time, and inserts the
connection id into the target room's member set, leaving every other room's
stored state untouched (in particular the id is not removed from its previous
room's member set). -/
theorem c6_duplicate_join_overwrites (s : State) (e : TEvent) (uname : String)
    (ro : Option String) (sess : Session)
    (hev : e.ev = .join uname ro) (hu : s.users e.cid = some sess) :
    (step s e).1.users e.cid = some ⟨uname, joinKey ro, e.now⟩
    ∧ (step s e).1.isMember (joinKey ro) e.cid = true
    ∧ (∀ k, k ≠ joinKey ro → (step s e).1.rooms k = s.rooms k)
    ∧ ((step s e).2.filter Out.isError) = [] := by
  obtain ⟨n, c, ev⟩ := e
  cases hev
  refine ⟨?_, ?_, ?_, step_no_error ..⟩
  · rw [step_join_users, Function.update_same]
  · have h := congrFun (step_join_rooms s n c uname ro) (joinKey ro)
    rw [Function.update_same] at h
    simp [State.isMember, h]
  · intro k hk
    rw [step_join_rooms, Function.update_noteq hk]

/-- Witness for C6: a second join from registered connection 1 overwrites its
entry to point at "tech". -/
theorem c6_duplicate_join_overwrites_witness :
    (sAlice.users 1 = some ⟨"alice", "general", 0⟩)
    ∧ (step sAlice ⟨1, 1, .join "bob" (some "Tech")⟩).1.users 1
        = some ⟨"bob", joinKey (some "Tech"), 1⟩ :=
  ⟨by decide,
   (c6_duplicate_join_overwrites sAlice ⟨1, 1, .join "bob" (some "Tech")⟩ "bob"
     (some "Tech") ⟨"alice", "general", 0⟩ rfl (by decide)).1⟩

/-! ### C7–C10: round trip, id monotonicity, default room, idempotent switch -/

lemma isMember_eq_mem_usersOf (s : State) (k : String) (c : Nat) :
    s.isMember k c = decide (c ∈ usersOf (s.rooms k)) := by
  unfold State.isMember usersOf
  cases s.rooms k <;> simp

lemma usersOf_leaveRoom_self (rooms : String → Option Room) (k : String) (c : Nat) :
    usersOf (leaveRoom rooms k c k) = (usersOf (rooms k)).erase c := by
  rw [leaveRoom_apply, if_pos rfl]
  cases rooms k <;> simp [usersOf]

lemma usersOf_leaveRoom_ne (rooms : String → Option Room) (k : String) (c : Nat)
    (k' : String) (h : k' ≠ k) :
    usersOf (leaveRoom rooms k c k') = usersOf (rooms k') := by
  rw [leaveRoom_apply, if_neg h]

/-- C7 (confirmed): from any state, a connection that joins room A, then
switches to room B, then disconnects, ends with its id in neither room's
member set and with no Registry entry: the round trip leaves no residue. -/
theorem c7_round_trip (s : State) (c t₁ t₂ t₃ : Nat) (nm rA rB : String) :
    ((step (step (step s ⟨t₁, c, .join nm (some rA)⟩).1 ⟨t₂, c, .switchRoom rB⟩).1
        ⟨t₃, c, .disconnect⟩).1.users c = none)
    ∧ ((step (step (step s ⟨t₁, c, .join nm (some rA)⟩).1 ⟨t₂, c, .switchRoom rB⟩).1
        ⟨t₃, c, .disconnect⟩).1.isMember (lowerStr rA) c = false)
    ∧ ((step (step (step s ⟨t₁, c, .join nm (some rA)⟩).1 ⟨t₂, c, .switchRoom rB⟩).1
        ⟨t₃, c, .disconnect⟩).1.isMember (lowerStr rB) c = false) := by
  set s₁ := (step s ⟨t₁, c, .join nm (some rA)⟩).1 with hs₁
  have hu1 : s₁.users c = some ⟨nm, lowerStr rA, t₁⟩ := by
    rw [hs₁, step_join_users, Function.update_same]
    rfl
  have hst2 := step_switch_state s₁ t₂ c rB ⟨nm, lowerStr rA, t₁⟩ hu1
  set s₂ := (step s₁ ⟨t₂, c, .switchRoom rB⟩).1 with hs₂
  have hu2 : s₂.users c = some ⟨nm, lowerStr rB, t₁⟩ := by
    rw [hst2]
    exact Function.update_same ..
  have hr2 : s₂.rooms = Function.update (leaveRoom s₁.rooms (lowerStr rA) c)
      (lowerStr rB)
      (some { getOrCreateRoom (leaveRoom s₁.rooms (lowerStr rA) c) (lowerStr rB) rB t₂ with
              users := insert c (getOrCreateRoom (leaveRoom s₁.rooms (lowerStr rA) c)
                  (lowerStr rB) rB t₂).users }) := by
    rw [hst2]
  have hst3 := step_disconnect_state s₂ t₃ c ⟨nm, lowerStr rB, t₁⟩ hu2
  set s₃ := (step s₂ ⟨t₃, c, .disconnect⟩).1 with hs₃
  have hr3 : s₃.rooms = leaveRoom s₂.rooms (lowerStr rB) c := by
    rw [hst3]
  have hB : s₃.isMember (lowerStr rB) c = false := by
    rw [isMember_eq_mem_usersOf, hr3, usersOf_leaveRoom_self]
    simp
  refine ⟨?_, ?_, hB⟩
  · rw [hst3]
    exact Function.update_same ..
  · by_cases hAB : lowerStr rA = lowerStr rB
    · rw [hAB]; exact hB
    · rw [isMember_eq_mem_usersOf, hr3, usersOf_leaveRoom_ne _ _ _ _ hAB]
      have h2 : s₂.rooms (lowerStr rA)
          = leaveRoom s₁.rooms (lowerStr rA) c (lowerStr rA) := by
        rw [hr2]
        exact Function.update_noteq hAB _ _
      rw [h2, usersOf_leaveRoom_self]
      simp

/-- The ids minted by one handler invocation form a sublist of the singleton
clock reading of that event. -/
lemma createdIds_sublist (s : State) (e : TEvent) :
    List.Sublist (createdIds s e) [e.now] := by
  obtain ⟨n, c, ev⟩ := e
  cases ev <;> cases hu : s.users c <;> simp [createdIds, hu]

/-- All ids minted along a trace form a sublist of the trace's clock readings. -/
lemma allCreatedIds_sublist (s : State) (tr : List TEvent) :
    List.Sublist (allCreatedIds s tr) (tr.map TEvent.now) := by
  induction tr generalizing s with
  | nil => simp [allCreatedIds]
  | cons e rest ih =>
      rw [allCreatedIds, List.map_cons]
      exact List.Sublist.append (createdIds_sublist s e) (ih (step s e).1)

/-- C8 (counterexample to the claim as stated): with the wall clock frozen
within one millisecond (`Date.now()` reads 5 during both `send-message`
handlers), two successive user messages are minted with equal ids 5 and 5, so
the later message's id is not strictly greater than the earlier one's. -/
theorem c8_ids_counterexample :
    allCreatedIds initState
        [⟨0, 1, .join "a" none⟩, ⟨5, 1, .sendMessage "x"⟩, ⟨5, 1, .sendMessage "y"⟩]
      = [5, 5]
    ∧ ¬ (5 : Nat) < 5 := by decide

/-- C8 (amended): every message id is the `Date.now()` reading at creation
time, so along any trace whose clock readings are non-decreasing the minted
ids (user messages and private messages alike) are non-decreasing in creation
order; ids minted within the same clock reading coincide, so strict increase
holds only between creations with distinct readings. -/
theorem c8_ids_nondecreasing (s : State) (tr : List TEvent)
    (h : (tr.map TEvent.now).Sorted (· ≤ ·)) :
    (allCreatedIds s tr).Sorted (· ≤ ·) :=
  List.Pairwise.sublist (allCreatedIds_sublist s tr) h

/-- Witness for C8: a strictly clocked two-message trace has non-decreasing
ids. -/
theorem c8_ids_nondecreasing_witness :
    (([⟨0, 1, .join "a" none⟩, ⟨5, 1, .sendMessage "x"⟩,
        ⟨6, 1, .sendMessage "y"⟩] : List TEvent).map TEvent.now).Sorted (· ≤ ·)
    ∧ (allCreatedIds initState
        [⟨0, 1, .join "a" none⟩, ⟨5, 1, .sendMessage "x"⟩,
          ⟨6, 1, .sendMessage "y"⟩]).Sorted (· ≤ ·) :=
  ⟨by decide,
   c8_ids_nondecreasing initState
     [⟨0, 1, .join "a" none⟩, ⟨5, 1, .sendMessage "x"⟩, ⟨6, 1, .sendMessage "y"⟩]
     (by decide)⟩

/-- C9 (confirmed): a join whose payload has no room field registers the
connection with current room key "general" and puts it into the room stored
under that key; in general the key a join touches is the lower-cased room
name (`joinKey`), so two joins whose room names agree up to letter case land
in the same room. -/
theorem c9_default_room_general (s : State) (e : TEvent) (uname : String)
    (hev : e.ev = .join uname none) :
    (step s e).1.users e.cid = some ⟨uname, "general", e.now⟩
    ∧ (step s e).1.isMember "general" e.cid = true
    ∧ (∀ ro : Option String, joinKey ro = lowerStr (ro.getD "general"))
    ∧ ∀ r₁ r₂ : String, lowerStr r₁ = lowerStr r₂ →
        joinKey (some r₁) = joinKey (some r₂) := by
  obtain ⟨n, c, ev⟩ := e
  cases hev
  have hkey : joinKey (none : Option String) = "general" := by decide
  refine ⟨?_, ?_, fun ro => rfl, fun r₁ r₂ h => h⟩
  · rw [step_join_users, hkey, Function.update_same]
  · have h := congrFun (step_join_rooms s n c uname none) (joinKey none)
    rw [Function.update_same] at h
    rw [hkey] at h
    simp [State.isMember, h]

/-- Witness for C9: the concrete no-room join of connection 1. -/
theorem c9_default_room_general_witness :
    ((⟨0, 1, .join "alice" none⟩ : TEvent).ev = ClientEvent.join "alice" none)
    ∧ (step initState ⟨0, 1, .join "alice" none⟩).1.users 1
        = some ⟨"alice", "general", 0⟩ :=
  ⟨rfl, (c9_default_room_general initState ⟨0, 1, .join "alice" none⟩ "alice" rfl).1⟩

/-- C10 (confirmed): a `switch-room` naming a room whose key equals the
sender's current room key leaves the entire state unchanged — the handler
removes the sender from the room's member set and re-inserts it, rewrites the
Registry entry with the same room key, and touches nothing else, so the room's
member set and history, the Registry, and every other room are all equal to
their values before the event. -/
theorem c10_switch_same_room_noop (s : State) (e : TEvent) (rm : String)
    (u : Session) (r : Room)
    (hev : e.ev = .switchRoom rm) (hu : s.users e.cid = some u)
    (hkey : lowerStr rm = u.room) (hr : s.rooms u.room = some r)
    (hc : e.cid ∈ r.users) :
    (step s e).1 = s := by
  obtain ⟨n, c, ev⟩ := e
  cases hev
  rw [step_switch_state s n c rm u hu, hkey]
  have hl : leaveRoom s.rooms u.room c
      = Function.update s.rooms u.room (some { r with users := r.users.erase c }) := by
    unfold leaveRoom
    rw [hr]
  have hlr : leaveRoom s.rooms u.room c u.room
      = some { r with users := r.users.erase c } := by
    rw [hl, Function.update_same]
  have hg : getOrCreateRoom (leaveRoom s.rooms u.room c) u.room rm n
      = { r with users := r.users.erase c } := by
    unfold getOrCreateRoom
    rw [hlr]
  have hU : Function.update s.users c (some { u with room := u.room }) = s.users := by
    have heta : ({ u with room := u.room } : Session) = u := rfl
    rw [heta, ← hu, Function.update_eq_self]
  have hR : Function.update (leaveRoom s.rooms u.room c) u.room
      (some { getOrCreateRoom (leaveRoom s.rooms u.room c) u.room rm n with
              users := insert c (getOrCreateRoom (leaveRoom s.rooms u.room c)
                u.room rm n).users })
      = s.rooms := by
    rw [hg, hl, Function.update_idem]
    have heta : ({ { r with users := r.users.erase c } with
        users := insert c ({ r with users := r.users.erase c } : Room).users } : Room)
        = r := by
      show ({ r with users := insert c (r.users.erase c) } : Room) = r
      rw [Finset.insert_erase hc]
    rw [heta, ← hr, Function.update_eq_self]
  rw [hU, hR]

/-- Witness for C10: switching from "general" to "General" in the sample
joined state is a state no-op. -/
theorem c10_switch_same_room_noop_witness :
    (lowerStr "General" = "general"
      ∧ sAlice.users 1 = some ⟨"alice", "general", 0⟩
      ∧ sAlice.rooms "general" = some ⟨"General", {1}, [], 0⟩
      ∧ (1 : Nat) ∈ ({1} : Finset Nat))
    ∧ (step sAlice ⟨1, 1, .switchRoom "General"⟩).1 = sAlice :=
  ⟨⟨by decide, by decide, by decide, by decide⟩,
   c10_switch_same_room_noop sAlice ⟨1, 1, .switchRoom "General"⟩ "General"
     ⟨"alice", "general", 0⟩ ⟨"General", {1}, [], 0⟩ rfl (by decide) (by decide)
     (by decide) (by decide)⟩

end Chat
